import Mathlib

/-
Verification of the Ruby heuristic scanner (src/parsers/ruby.c).

The scanner is embedded shallowly: C strings are lists of characters with
the cursor represented by the remaining suffix, and the pair returned by a
matcher carries the C functions boolean result together with the cursor
after the call (the C code restores the cursor explicitly on failure, and
the embedding returns the original suffix on those paths).  The external
collaborators that are not part of this repository (the nesting-level
store of nestlevel.c and the cork queue of entry.c) are modelled from the
specification, as noted on their definitions.
-/

/-- NUL, the C string terminator; reading one past the last character of a
line yields this character. -/
def NUL : Char := Char.ofNat 0

/-- The first character of the remaining input, or NUL at end of string,
exactly what dereferencing the C cursor yields. -/
def headNul (s : List Char) : Char := s.headD NUL

/-- isIdentChar of ruby.c: isalnum or underscore (ASCII). -/
def isIdentChar (c : Char) : Bool := c.isAlphanum || c == '_'

/-- notIdentChar of ruby.c. -/
def notIdentChar (c : Char) : Bool := ! isIdentChar c

/-- isOperatorChar of ruby.c. -/
def isOperatorChar (c : Char) : Bool :=
  c == '[' || c == ']' ||
  c == '=' || c == '!' || c == '~' ||
  c == '+' || c == '-' ||
  c == '@' || c == '*' || c == '/' || c == '%' ||
  c == '<' || c == '>' ||
  c == '&' || c == '^' || c == '|'

/-- notOperatorChar of ruby.c. -/
def notOperatorChar (c : Char) : Bool := ! isOperatorChar c

/-- isSigilChar of ruby.c. -/
def isSigilChar (c : Char) : Bool := c == '@' || c == '$'

/-- C isspace in the default locale (ASCII whitespace). -/
def isSpaceC (c : Char) : Bool :=
  c == ' ' || c == '\t' || c == '\n' || c == '\x0b' || c == '\x0c' || c == '\r'

/-- isWhitespace of ruby.c: NUL or a space character. -/
def isWhitespace (c : Char) : Bool := c == NUL || isSpaceC c

/-- charIsIn of ruby.c. -/
def charIsIn (ch : Char) (list : List Char) : Bool := list.contains ch

/-- skipWhitespace of ruby.c: advance the cursor over leading whitespace. -/
def skipWhitespace (cp : List Char) : List Char := cp.dropWhile isSpaceC

/--
canMatch of ruby.c.  Attempts to advance the cursor past the literal and
additionally requires the following character to satisfy the end check.
Returns the C boolean result and the cursor after the call; on failure the
cursor is left where it was.  The take-based comparison merges the length
guard and the strncmp of the C code: they succeed together exactly when
the literal is a prefix of the remaining input.
-/
def canMatch (s : List Char) (literal : List Char) (end_check : Char → Bool) :
    Bool × List Char :=
  if s.take literal.length = literal then
    if end_check (headNul (s.drop literal.length)) then
      (true, s.drop literal.length)
    else (false, s)
  else (false, s)

/-- canMatchKeyword of ruby.c. -/
def canMatchKeyword (s : List Char) (literal : List Char) : Bool × List Char :=
  canMatch s literal notIdentChar

/--
advanceWhile of ruby.c: advance the cursor while the predicate holds and
report whether it advanced by at least one position.  The loop stops at
the string terminator, i.e. at the end of the list.
-/
def advanceWhile (predicate : Char → Bool) (s : List Char) : Bool × List Char :=
  match s with
  | [] => (false, [])
  | c :: rest =>
    if predicate c then (true, (advanceWhile predicate rest).2)
    else (false, c :: rest)

/--
canMatchKeywordWithAssign of ruby.c: first a plain keyword match; failing
that, speculatively skip an optional sigil, an identifier, whitespace, an
operator run that must end in an equals sign, and whitespace, then retry
the keyword.  Every failure path restores the cursor to the original
position.  The check of the character before the cursor after the
operator run is expressed through the last element of the run taken.
-/
def canMatchKeywordWithAssign (s : List Char) (literal : List Char) :
    Bool × List Char :=
  let original_pos := s
  let m := canMatchKeyword s literal
  if m.1 then m
  else
    let s1 := (advanceWhile isSigilChar m.2).2
    let a2 := advanceWhile isIdentChar s1
    if ! a2.1 then (false, original_pos)
    else
      let s3 := (advanceWhile isWhitespace a2.2).2
      let a4 := advanceWhile isOperatorChar s3
      let opRun := s3.takeWhile isOperatorChar
      if ! (a4.1 && (opRun.getLast? == some '=')) then (false, original_pos)
      else
        let s5 := (advanceWhile isWhitespace a4.2).2
        let m2 := canMatchKeyword s5 literal
        if m2.1 then m2 else (false, original_pos)

/-- RUBY_OPERATORS of ruby.c, in source order.  The last spelling is the
backquote operator, written by code point. -/
def RUBY_OPERATORS : List (List Char) :=
  [ ['[', ']'], ['[', ']', '='],
    ['*', '*'],
    ['!'], ['~'], ['+', '@'], ['-', '@'],
    ['*'], ['/'], ['%'],
    ['+'], ['-'],
    ['>', '>'], ['<', '<'],
    ['&'],
    ['^'], ['|'],
    ['<', '='], ['<'], ['>'], ['>', '='],
    ['<', '=', '>'], ['=', '='], ['=', '=', '='], ['!', '='], ['=', '~'], ['!', '~'],
    [Char.ofNat 96] ]

/-- The loop of parseRubyOperator: try each spelling in order with the
non-operator boundary check; on success append the spelling to the name. -/
def parseRubyOperatorLoop (ops : List (List Char)) (name : List Char)
    (cp : List Char) : Bool × List Char × List Char :=
  match ops with
  | [] => (false, name, cp)
  | op :: rest =>
    let m := canMatch cp op notOperatorChar
    if m.1 then (true, name ++ op, m.2)
    else parseRubyOperatorLoop rest name cp

/-- parseRubyOperator of ruby.c. -/
def parseRubyOperator (name : List Char) (cp : List Char) :
    Bool × List Char × List Char :=
  parseRubyOperatorLoop RUBY_OPERATORS name cp

/-- rubyKind of ruby.c. -/
inductive rubyKind where
  | K_UNDEFINED
  | K_CLASS
  | K_METHOD
  | K_MODULE
  | K_SINGLETON
  | K_CONST
deriving DecidableEq

open rubyKind

/-- SCOPE_SEPARATOR of ruby.c. -/
def SCOPE_SEPARATOR : Char := '.'

/-- CORK_NIL of the cork queue: the reserved null reference. -/
def CORK_NIL : Nat := 0

/--
Modelled from the spec: an emitted symbol owned by the external index,
carrying name, kind, optional scope-qualifier string, optional
scope-parent kind, optional inheritance parent, a placeholder flag, and
the deferred mixin parser field once attached.
-/
structure tagEntryInfo where
  name : List Char
  kindIndex : rubyKind
  scopeKindIndex : Option rubyKind := none
  scopeName : Option (List Char) := none
  inheritance : Option (List Char) := none
  placeholder : Bool := false
  mixinField : Option (List Char) := none
deriving DecidableEq

/--
Modelled from the spec: one open lexical scope of the nesting-level store
(nestlevel.c is not part of this repository).  A frame references the
emitted symbol through its cork index (CORK_NIL for anonymous frames with
no bound symbol) and owns the frame-local block data, the ordered list of
recorded mixin specs.
-/
structure NestingLevel where
  corkIndex : Nat
  mixin : List (List Char)
deriving DecidableEq

/--
The state owned by one scanning pass: the scope stack (head = innermost
frame), the cork queue of emitted symbols (1-based references, 0 is
CORK_NIL), and ghost counters of the pushes and pops performed, which the
code itself does not store but which instrument exactly the two stack
operations.
-/
structure ScanState where
  nesting : List NestingLevel
  cork : List tagEntryInfo
  pushes : Nat
  pops : Nat
deriving DecidableEq

/-- The state at the start of a file: empty stack, empty cork queue. -/
def initialState : ScanState := ⟨[], [], 0, 0⟩

/-- Modelled from the spec: getEntryInCorkQueue returns the symbol bound
to a reference, or nothing for CORK_NIL. -/
def getEntryInCorkQueue (cork : List tagEntryInfo) (i : Nat) : Option tagEntryInfo :=
  match i with
  | 0 => none
  | Nat.succ j => cork.get? j

/-- Modelled from the spec: makeTagEntry appends the symbol to the index
and returns the new opaque reference. -/
def makeTagEntry (cork : List tagEntryInfo) (e : tagEntryInfo) :
    List tagEntryInfo × Nat :=
  (cork ++ [e], cork.length + 1)

/-- Replace the symbol stored at a cork reference (used to attach derived
metadata to an already emitted symbol). -/
def modifyCorkEntry (cork : List tagEntryInfo) (i : Nat)
    (f : tagEntryInfo → tagEntryInfo) : List tagEntryInfo :=
  match i with
  | 0 => cork
  | Nat.succ j =>
    match cork.get? j with
    | some e => cork.set j (f e)
    | none => cork

/-- Modelled from the spec: getEntryOfNestingLevel looks up the symbol
bound to a frame, yielding nothing when the frame pointer is null or the
frame holds no bound symbol. -/
def getEntryOfNestingLevel (cork : List tagEntryInfo) (nl : Option NestingLevel) :
    Option tagEntryInfo :=
  match nl with
  | none => none
  | some l => getEntryInCorkQueue cork l.corkIndex

/-- Modelled from the spec: nestingLevelsPush opens a frame bound to the
given reference with empty block data.  The ghost push counter is
incremented here and nowhere else. -/
def nestingLevelsPush (st : ScanState) (corkIndex : Nat) : ScanState :=
  { st with nesting := ⟨corkIndex, []⟩ :: st.nesting, pushes := st.pushes + 1 }

/-- Update the frame at the given distance from the top of the stack. -/
def updateNthLevel (nesting : List NestingLevel) (i : Nat)
    (f : NestingLevel → NestingLevel) : List NestingLevel :=
  match nesting, i with
  | [], _ => []
  | x :: rest, 0 => f x :: rest
  | x :: rest, Nat.succ n => x :: updateNthLevel rest n f

/--
The loop of attachMixinField of ruby.c: the field starts as the first
recorded spec; the loop then runs once per remaining spec, but each
iteration appends a comma followed by stringListItem (mixinSpec, 1) - the
constant index 1 of the source, not the loop index - so every appended
element is the second spec.  The iteration list stands for the loop
counter and its elements are not read.
-/
def attachMixinLoop (mixinSpec : List (List Char)) (field : List Char)
    (iter : List (List Char)) : List Char :=
  match iter with
  | [] => field
  | _ :: restIter =>
    attachMixinLoop mixinSpec (field ++ ',' :: mixinSpec.getD 1 []) restIter

/-- attachMixinField of ruby.c: aggregate the recorded specs into one
field value and attach it to the cork entry. -/
def attachMixinField (cork : List tagEntryInfo) (corkIndex : Nat)
    (mixinSpec : List (List Char)) : List tagEntryInfo :=
  let mixinField := attachMixinLoop mixinSpec (mixinSpec.getD 0 []) (mixinSpec.drop 1)
  modifyCorkEntry cork corkIndex (fun e => { e with mixinField := some mixinField })

/-- deleteBlockData of ruby.c: on frame destruction, if the frame has a
bound symbol and recorded mixin specs, attach the aggregated field. -/
def deleteBlockData (cork : List tagEntryInfo) (nl : NestingLevel) :
    List tagEntryInfo :=
  if nl.corkIndex ≠ CORK_NIL ∧ nl.mixin ≠ [] then
    attachMixinField cork nl.corkIndex nl.mixin
  else cork

/-- Modelled from the spec: nestingLevelsPop destroys the innermost frame,
running deleteBlockData on it.  Call sites guard on a non-empty stack.
The ghost pop counter is incremented here and nowhere else. -/
def nestingLevelsPop (st : ScanState) : ScanState :=
  match st.nesting with
  | [] => st
  | nl :: rest =>
    { st with
      nesting := rest,
      cork := deleteBlockData st.cork nl,
      pops := st.pops + 1 }

/-- Modelled from the spec: nestingLevelsFree tears down every frame still
open at end of input, running deleteBlockData on each; returns the final
state and the number of frames torn down. -/
def nestingLevelsFree (st : ScanState) : ScanState × Nat :=
  ({ st with nesting := [], cork := st.nesting.foldl deleteBlockData st.cork },
   st.nesting.length)

/-- The loop of nestingLevelsToScope of ruby.c, walking the recorded
scopes from the outermost inward and joining the names of frames whose
bound symbol is present, non-empty and not a placeholder. -/
def scopeLoop (cork : List tagEntryInfo) (frames : List NestingLevel)
    (result : List Char) (chunks_output : Nat) : List Char :=
  match frames with
  | [] => result
  | nl :: rest =>
    match getEntryOfNestingLevel cork (some nl) with
    | some e =>
      if e.name.length > 0 && ! e.placeholder then
        scopeLoop cork rest
          (result ++ (if chunks_output > 0 then [SCOPE_SEPARATOR] else []) ++ e.name)
          (chunks_output + 1)
      else scopeLoop cork rest result chunks_output
    | none => scopeLoop cork rest result chunks_output

/-- nestingLevelsToScope of ruby.c.  The stack list has its innermost
frame first, so the outer-to-inner walk of the C loop is the reverse. -/
def nestingLevelsToScope (cork : List tagEntryInfo)
    (nesting : List NestingLevel) : List Char :=
  scopeLoop cork nesting.reverse [] 0

/-- enterUnnamedScope of ruby.c: push an anonymous frame; when the current
frame has a bound symbol, a placeholder entry with the parent kind is
corked first, otherwise the frame is bound to CORK_NIL. -/
def enterUnnamedScope (st : ScanState) : ScanState :=
  match getEntryOfNestingLevel st.cork st.nesting.head? with
  | some e_parent =>
    let e : tagEntryInfo := { name := [], kindIndex := e_parent.kindIndex, placeholder := true }
    let mk := makeTagEntry st.cork e
    nestingLevelsPush { st with cork := mk.1 } mk.2
  | none => nestingLevelsPush st CORK_NIL

/--
The character-copying loop of parseIdentifier of ruby.c, generic over the
kind being read.  Qualifier separators (runs of colons) set a pending-
separator flag and are emitted as one canonical SCOPE_SEPARATOR before the
next plain character.  For the method kind, a period aborts the read,
clears the accumulated name and restarts the whole read as a singleton
read: the restart continuation passed in stands for that recursive call
of the C code (which is only ever taken with the singleton kind, where no
further restart can occur).  For method and singleton kinds a trailing
question mark, exclamation point or equals sign ends the name and is kept.
-/
def identLoopGen (restart : List Char → rubyKind × List Char × List Char)
    (kind : rubyKind) (also_ok : List Char) (had_sep : Bool)
    (name : List Char) (cp : List Char) : rubyKind × List Char × List Char :=
  match cp with
  | [] => (kind, name, [])
  | c :: rest =>
    if c == ':' || isIdentChar c || charIsIn c also_ok then
      if c == ':' then identLoopGen restart kind also_ok true name rest
      else
        let name2 := (if had_sep then name ++ [SCOPE_SEPARATOR] else name) ++ [c]
        if kind = K_METHOD ∧ c = '.' then restart rest
        else if (kind = K_METHOD ∨ kind = K_SINGLETON) ∧ charIsIn c ['?', '!', '='] then
          (kind, name2, rest)
        else identLoopGen restart kind also_ok false name2 rest
    else (kind, name, c :: rest)

/-- parseIdentifier of ruby.c with an explicit restart continuation for
the singleton re-read (see identLoopGen). -/
def parseIdentifierWith (restart : List Char → rubyKind × List Char × List Char)
    (cp : List Char) (name : List Char) (kind : rubyKind) :
    rubyKind × List Char × List Char :=
  let also_ok : List Char :=
    if kind = K_METHOD then ['.', '?', '!', '=']
    else if kind = K_SINGLETON then ['?', '!', '=']
    else []
  let cp1 := skipWhitespace cp
  if kind = K_CLASS ∧ headNul cp1 = '<' ∧ headNul (cp1.drop 1) = '<' then
    (K_UNDEFINED, name, cp1)
  else
    let opTry :=
      if kind = K_METHOD ∨ kind = K_SINGLETON then parseRubyOperator name cp1
      else (false, name, cp1)
    if opTry.1 then (kind, opTry.2.1, opTry.2.2)
    else identLoopGen restart kind also_ok false name cp1

/-- parseIdentifier instantiated at the singleton kind, where the restart
branch is unreachable (the period is not accepted for singletons), so the
continuation is a dead stub. -/
def parseIdentifierSingleton (cp : List Char) (name : List Char) :
    rubyKind × List Char × List Char :=
  parseIdentifierWith (fun s => (K_UNDEFINED, [], s)) cp name K_SINGLETON

/-- parseIdentifier of ruby.c: returns the effective kind, the name
accumulated into the passed buffer, and the cursor after the read. -/
def parseIdentifier (cp : List Char) (name : List Char) (kind : rubyKind) :
    rubyKind × List Char × List Char :=
  parseIdentifierWith (fun s => parseIdentifierSingleton s []) cp name kind

/-- The position of the last SCOPE_SEPARATOR in a name (strrchr of the C
code), if any. -/
def strrchrDot (l : List Char) : Option Nat :=
  match List.findIdx? (fun c => c = SCOPE_SEPARATOR) l.reverse with
  | some j => some (l.length - 1 - j)
  | none => none

/--
The qualified-name split of emitRubyTag of ruby.c: when the name contains
an internal separator that is not its first or effectively last character,
everything before the last separator is appended to the computed scope
(with a separator when the scope is non-empty), the parent kind defaults
to module, and only the part after the separator remains as the own name.
Returns (scope, parent kind, unqualified name).
-/
def splitQualifiedName (scope : List Char) (parent_kind : rubyKind)
    (qualified_name : List Char) : List Char × rubyKind × List Char :=
  match strrchrDot qualified_name with
  | some i =>
    if qualified_name.drop (i + 1) ≠ [] then
      if i > 0 then
        (scope ++ (if scope.length > 0 then [SCOPE_SEPARATOR] else [])
           ++ qualified_name.take i,
         K_MODULE, qualified_name.drop (i + 1))
      else (scope, parent_kind, qualified_name.drop (i + 1))
    else (scope, parent_kind, qualified_name)
  | none => (scope, parent_kind, qualified_name)

/--
emitRubyTag of ruby.c.  When the kind is administratively disabled,
nothing is emitted and CORK_NIL is signalled.  Otherwise the scope path is
computed from the stack, an explicit qualifier is split off the raw name,
the tag is corked with its scope fields when the scope is non-empty, and
for every kind but the constant one a new frame bound to the entry is
pushed.  The enabled predicate models the kind registry of the external
configuration surface.
-/
def emitRubyTag (enabled : rubyKind → Bool) (st : ScanState)
    (name : List Char) (kind : rubyKind) : ScanState × Nat :=
  if ! enabled kind then (st, CORK_NIL)
  else
    let scope := nestingLevelsToScope st.cork st.nesting
    let parent := getEntryOfNestingLevel st.cork st.nesting.head?
    let parent_kind := match parent with
      | some p => p.kindIndex
      | none => K_UNDEFINED
    let split := splitQualifiedName scope parent_kind name
    let tag : tagEntryInfo :=
      { name := split.2.2,
        kindIndex := kind,
        scopeKindIndex := if split.1.length > 0 then some split.2.1 else none,
        scopeName := if split.1.length > 0 then some split.1 else none }
    let mk := makeTagEntry st.cork tag
    let st2 := { st with cork := mk.1 }
    let st3 := if kind ≠ K_CONST then nestingLevelsPush st2 mk.2 else st2
    (st3, mk.2)

/--
readAndEmitTag of ruby.c: only when the keyword was followed by a space
character is a name read; an undefined kind or empty name pushes an
anonymous placeholder scope instead of emitting.  Returns the state, the
cork reference (CORK_NIL when nothing was emitted) and the cursor.
-/
def readAndEmitTag (enabled : rubyKind → Bool) (st : ScanState)
    (cp : List Char) (expected_kind : rubyKind) : ScanState × Nat × List Char :=
  if isSpaceC (headNul cp) then
    let p := parseIdentifier cp [] expected_kind
    if p.1 = K_UNDEFINED ∨ p.2.1.length = 0 then
      (enterUnnamedScope st, CORK_NIL, p.2.2)
    else
      let e := emitRubyTag enabled st p.2.1 p.1
      (e.1, e.2, p.2.2)
  else (st, CORK_NIL, cp)

/--
readAndStoreMixinSpec of ruby.c.  The entry of the current frame is read
unguarded: when the stack is empty or the innermost frame has no bound
symbol, the C code dereferences a null entry pointer; such an access is an
error of the embedding.  When the innermost entry is a singleton method,
the frame below the top is used instead (returning when the stack has no
such frame), and its entry is again read unguarded.  If the owning entry
is a class or module and a space follows the keyword, a spec of the form
relation:module-path is parsed and appended to the block data of the
owning frame.  The body below is the part of the C function after the
singleton walk, taking the owning frame (as its distance idx from the top
of the stack) and its entry.
-/
def readAndStoreMixinBody (st : ScanState) (cp : List Char)
    (how_mixin : List Char) (idx : Nat) (e : tagEntryInfo) :
    ScanState × List Char :=
  if ! (e.kindIndex = K_CLASS ∨ e.kindIndex = K_MODULE) then (st, cp)
  else if isSpaceC (headNul cp) then
    let spec0 := how_mixin ++ [':']
    let p := parseIdentifier cp spec0 K_MODULE
    if p.2.1.length = spec0.length then (st, p.2.2)
    else
      ({ st with
         nesting := updateNthLevel st.nesting idx
           (fun nl => { nl with mixin := nl.mixin ++ [p.2.1] }) },
       p.2.2)
  else (st, cp)

/-- readAndStoreMixinSpec of ruby.c: the unguarded entry reads and the
singleton walk, then the body above. -/
def readAndStoreMixinSpec (st : ScanState) (cp : List Char)
    (how_mixin : List Char) : Except Unit (ScanState × List Char) :=
  match getEntryOfNestingLevel st.cork st.nesting.head? with
  | none => Except.error ()
  | some e0 =>
    if e0.kindIndex = K_SINGLETON then
      match st.nesting.get? 1 with
      | none => Except.ok (st, cp)
      | some nl2 =>
        match getEntryInCorkQueue st.cork nl2.corkIndex with
        | none => Except.error ()
        | some e2 => Except.ok (readAndStoreMixinBody st cp how_mixin 1 e2)
    else Except.ok (readAndStoreMixinBody st cp how_mixin 0 e0)

/--
doesLineIncludeConstant of ruby.c.  The local pointer p of the C function
aliases the cursor, so the cursor stays advanced even when the line turns
out not to be a constant assignment.  Returns whether an uppercase
identifier followed by an equals sign was found, the constant name, and
the cursor after the call.
-/
def doesLineIncludeConstant (cp : List Char) : Bool × List Char × List Char :=
  let p1 := if isSpaceC (headNul cp) then skipWhitespace cp else cp
  if (headNul p1).isUpper then
    let constant := p1.takeWhile isIdentChar
    let p2 := p1.dropWhile isIdentChar
    let p3 := if isSpaceC (headNul p2) then skipWhitespace p2 else p2
    if headNul p3 = '=' then (true, constant, p3)
    else (false, [], p3)
  else (false, [], p1)

/--
The trailing token sweep of findRubyTags of ruby.c, fuelled: the loop
consumes at least one character per iteration, so a fuel equal to the
length of the remaining line (spent once per iteration) never runs out
before the cursor does.  A failed keyword match leaves the cursor in
place, so the cascade threads each returned cursor; in particular an end
keyword scanned with an empty stack stays consumed while the remaining
cases examine the characters after it, exactly as the short-circuit
condition of the C code behaves.
-/
def sweepF (fuel : Nat) (st : ScanState) (inMultiLineComment : Bool)
    (expect_separator : Bool) (cp : List Char) : ScanState :=
  match fuel with
  | 0 => st
  | Nat.succ fuel =>
    match cp with
    | [] => st
    | c :: rest =>
      if inMultiLineComment || isSpaceC c then
        sweepF fuel st inMultiLineComment expect_separator rest
      else if c == '#' then st
      else
        let mBegin := canMatchKeyword (c :: rest) ['b', 'e', 'g', 'i', 'n']
        if mBegin.1 then
          sweepF fuel (enterUnnamedScope st) inMultiLineComment expect_separator mBegin.2
        else
          let mDo := canMatchKeyword mBegin.2 ['d', 'o']
          if mDo.1 then
            if ! expect_separator then
              sweepF fuel (enterUnnamedScope st) inMultiLineComment expect_separator mDo.2
            else sweepF fuel st inMultiLineComment false mDo.2
          else
            let mEnd := canMatchKeyword mDo.2 ['e', 'n', 'd']
            if mEnd.1 ∧ st.nesting.length > 0 then
              sweepF fuel (nestingLevelsPop st) inMultiLineComment expect_separator mEnd.2
            else
              match mEnd.2 with
              | [] => st
              | d :: rest2 =>
                if d == '"' then
                  sweepF fuel st inMultiLineComment expect_separator
                    ((rest2.dropWhile (fun x => x ≠ '"')).drop 1)
                else if d == ';' then
                  sweepF fuel st inMultiLineComment false rest2
                else
                  sweepF fuel st inMultiLineComment expect_separator
                    (rest2.dropWhile isIdentChar)

/-- The trailing token sweep at its full fuel. -/
def sweep (st : ScanState) (inMultiLineComment : Bool)
    (expect_separator : Bool) (cp : List Char) : ScanState :=
  sweepF cp.length st inMultiLineComment expect_separator cp

/--
The first leading-keyword dispatch of findRubyTags of ruby.c: a while,
until or for header (with the assignment idiom allowed) opens an
anonymous scope and arms the expect-separator flag; a case, if or unless
header opens an anonymous scope without arming it.  Returns the state,
the flag, and the cursor.  Failed matches restore the cursor, so the
cascade threads each returned cursor.  The short-circuit disjunction of
canMatchKeywordWithAssign calls of the C condition is the fold below.
-/
def matchAnyKeywordWithAssign (cp : List Char) (kws : List (List Char)) :
    Bool × List Char :=
  match kws with
  | [] => (false, cp)
  | kw :: rest =>
    let m := canMatchKeywordWithAssign cp kw
    if m.1 then m else matchAnyKeywordWithAssign m.2 rest

def lineDispatch1 (st : ScanState) (cp : List Char) :
    ScanState × Bool × List Char :=
  let m := matchAnyKeywordWithAssign cp
    [['f', 'o', 'r'], ['u', 'n', 't', 'i', 'l'], ['w', 'h', 'i', 'l', 'e']]
  if m.1 then (enterUnnamedScope st, true, m.2)
  else
    let n := matchAnyKeywordWithAssign m.2
      [['c', 'a', 's', 'e'], ['i', 'f'], ['u', 'n', 'l', 'e', 's', 's']]
    if n.1 then (enterUnnamedScope st, false, n.2)
    else (st, false, n.2)

/--
The kind heuristic of the def branch of findRubyTags of ruby.c: a def
whose innermost frame entry is an unnamed class-level scope (the body of
a class-shift-shift-self header) is read as a singleton method, otherwise
as a plain method.  The entry read here is guarded in the C code.
-/
def defExpectedKind (st : ScanState) : rubyKind :=
  match getEntryOfNestingLevel st.cork st.nesting.head? with
  | some e =>
    if e.kindIndex = K_CLASS ∧ e.name.length = 0 then K_SINGLETON
    else K_METHOD
  | none => K_METHOD

/--
The second leading-keyword dispatch of findRubyTags of ruby.c: module,
class (with the inheritance-parent attachment when the emission produced
a symbol), include, prepend, extend (which can fail on an absent frame
entry, see readAndStoreMixinSpec), def (with the singleton heuristic for
an unnamed class-level scope), and finally the constant-assignment form.
-/
def classBranchDispatch (enabled : rubyKind → Bool) (st : ScanState)
    (cpAfterKeyword : List Char) : ScanState × List Char :=
  let r := readAndEmitTag enabled st cpAfterKeyword K_CLASS
  if r.2.1 ≠ CORK_NIL then
    let cp3 := skipWhitespace r.2.2
    if headNul cp3 = '<' ∧ headNul (cp3.drop 1) ≠ '<' then
      let p := parseIdentifier (cp3.drop 1) [] K_CLASS
      if p.2.1.length > 0 then
        ({ r.1 with
           cork := modifyCorkEntry r.1.cork r.2.1
             (fun e => { e with inheritance := some p.2.1 }) },
         p.2.2)
      else (r.1, p.2.2)
    else (r.1, cp3)
  else (r.1, r.2.2)

def moduleBranchDispatch (enabled : rubyKind → Bool) (st : ScanState)
    (cpAfterKeyword : List Char) : ScanState × List Char :=
  let r := readAndEmitTag enabled st cpAfterKeyword K_MODULE
  (r.1, r.2.2)

def defBranchDispatch (enabled : rubyKind → Bool) (st : ScanState)
    (cpAfterKeyword : List Char) : ScanState × List Char :=
  let r := readAndEmitTag enabled st cpAfterKeyword (defExpectedKind st)
  (r.1, r.2.2)

def constBranchDispatch (enabled : rubyKind → Bool) (st : ScanState)
    (cp : List Char) : ScanState × List Char :=
  let c := doesLineIncludeConstant cp
  if c.1 then
    let e := emitRubyTag enabled st c.2.1 K_CONST
    (e.1, c.2.2)
  else (st, c.2.2)

def lineDispatch2 (enabled : rubyKind → Bool) (st : ScanState)
    (cp : List Char) : Except Unit (ScanState × List Char) :=
  let mModule := canMatchKeywordWithAssign cp ['m', 'o', 'd', 'u', 'l', 'e']
  if mModule.1 then Except.ok (moduleBranchDispatch enabled st mModule.2)
  else
    let mClass := canMatchKeywordWithAssign mModule.2 ['c', 'l', 'a', 's', 's']
    if mClass.1 then Except.ok (classBranchDispatch enabled st mClass.2)
    else
      let mInclude := canMatchKeywordWithAssign mClass.2 ['i', 'n', 'c', 'l', 'u', 'd', 'e']
      if mInclude.1 then
        readAndStoreMixinSpec st mInclude.2 ['i', 'n', 'c', 'l', 'u', 'd', 'e']
      else
        let mPrepend := canMatchKeywordWithAssign mInclude.2 ['p', 'r', 'e', 'p', 'e', 'n', 'd']
        if mPrepend.1 then
          readAndStoreMixinSpec st mPrepend.2 ['p', 'r', 'e', 'p', 'e', 'n', 'd']
        else
          let mExtend := canMatchKeywordWithAssign mPrepend.2 ['e', 'x', 't', 'e', 'n', 'd']
          if mExtend.1 then
            readAndStoreMixinSpec st mExtend.2 ['e', 'x', 't', 'e', 'n', 'd']
          else
            let mDef := canMatchKeywordWithAssign mExtend.2 ['d', 'e', 'f']
            if mDef.1 then Except.ok (defBranchDispatch enabled st mDef.2)
            else Except.ok (constBranchDispatch enabled st mDef.2)

/--
One iteration of the line loop of findRubyTags of ruby.c: the multi-line
comment fences are checked first (a matched fence ends the line), then
leading whitespace is skipped, the two leading-keyword dispatches run,
and the trailing token sweep consumes the rest of the line.  The
expect-separator flag is local to the line.  Returns the state and the
multi-line comment flag for the next line.
-/
def processLine (enabled : rubyKind → Bool) (st : ScanState)
    (inMultiLineComment : Bool) (line : List Char) :
    Except Unit (ScanState × Bool) :=
  let mB := canMatch line ['=', 'b', 'e', 'g', 'i', 'n'] isWhitespace
  if mB.1 then Except.ok (st, true)
  else
    let mE := canMatch mB.2 ['=', 'e', 'n', 'd'] isWhitespace
    if mE.1 then Except.ok (st, false)
    else if inMultiLineComment then Except.ok (st, true)
    else
      let cp0 := skipWhitespace mE.2
      let d1 := lineDispatch1 st cp0
      match lineDispatch2 enabled d1.1 d1.2.2 with
      | Except.error u => Except.error u
      | Except.ok (st2, cp2) =>
        Except.ok (sweep st2 false d1.2.1 cp2, false)

/-- The line loop of findRubyTags of ruby.c over the whole line supply. -/
def scanLines (enabled : rubyKind → Bool) :
    List (List Char) → ScanState → Bool → Except Unit ScanState
  | [], st, _ => Except.ok st
  | l :: ls, st, inMultiLineComment =>
    match processLine enabled st inMultiLineComment l with
    | Except.error u => Except.error u
    | Except.ok (st2, f2) => scanLines enabled ls st2 f2

/-- findRubyTags of ruby.c: scan every line from a fresh state, then tear
down the remaining frames.  Returns the final state together with the
number of frames torn down during final cleanup. -/
def findRubyTags (enabled : rubyKind → Bool) (lines : List (List Char)) :
    Except Unit (ScanState × Nat) :=
  match scanLines enabled lines initialState false with
  | Except.error u => Except.error u
  | Except.ok st => Except.ok (nestingLevelsFree st)

/-- The kind registry with every kind enabled, the default of RubyKinds. -/
def allKindsEnabled : rubyKind → Bool := fun _ => true

/-- The kind registry with the constant kind administratively disabled. -/
def constKindDisabled : rubyKind → Bool := fun k => ! (k == K_CONST)

/-- The kind registry with the class kind administratively disabled. -/
def classKindDisabled : rubyKind → Bool := fun k => ! (k == K_CLASS)

/--
Following the words of the spec: the name a frame contributes to the
scope path, present exactly when the bound symbol of the frame is
present, non-empty and not a placeholder.
-/
def frameContributedName (cork : List tagEntryInfo) (nl : NestingLevel) :
    Option (List Char) :=
  match getEntryOfNestingLevel cork (some nl) with
  | some e => if e.name.length > 0 && ! e.placeholder then some e.name else none
  | none => none

/--
Following the words of the spec: the names of all enclosing frames whose
bound symbol is present, non-empty and non-placeholder, in outer-to-inner
order (the stack list holds the innermost frame first).
-/
def enclosingScopeNames (cork : List tagEntryInfo)
    (nesting : List NestingLevel) : List (List Char) :=
  nesting.reverse.filterMap (frameContributedName cork)

/--
Following the words of the spec: the dot-joined concatenation of a list
of names.
-/
def specDotJoined : List (List Char) → List Char
  | [] => []
  | [n] => n
  | n :: ns => n ++ SCOPE_SEPARATOR :: specDotJoined ns

/-- The input of the mixin aggregation example with three recorded specs. -/
def linesMixinThree : List (List Char) :=
  ["class X".data, "  include A".data, "  include B".data, "  include C".data,
   "end".data]

/-- The mixin aggregation example of the spec with two recorded specs. -/
def linesMixinTwo : List (List Char) :=
  ["class C".data, "  include Foo".data, "  include Bar".data, "end".data]

/-- A file whose only line is a top-level include, scanned with an empty
scope stack. -/
def lineIncludeFoo : List Char := "include Foo".data

/-- An anonymous frame with no bound symbol followed by an include. -/
def linesIfInclude : List (List Char) := ["if x".data, "include Foo".data]

/-- A module header with an explicit qualifier prefix. -/
def linesQualified : List (List Char) := ["module Foo::Bar".data, "end".data]

/-- The nested module/class/method example of the spec. -/
def linesNested : List (List Char) :=
  ["module M".data, "  class C".data, "    def bar".data, "    end".data,
   "  end".data, "end".data]

/-- A while header with its do on the same line. -/
def linesWhileDo : List (List Char) := ["while x do".data, "end".data]

/-- A while header whose do sits on the following line. -/
def linesWhileNewlineDo : List (List Char) :=
  ["while x".data, "do".data, "end".data, "end".data]

/-- A while header with a semicolon before the do on the same line. -/
def linesWhileSemiDo : List (List Char) := ["while x; do".data]

/-- A top-level constant assignment. -/
def lineConstantAssign : List Char := "VALUE = 1".data

/-- A class header with an inheritance parent. -/
def lineClassBase : List Char := "class C < Base".data

/-- Two unmatched end keywords. -/
def linesEndEnd : List (List Char) := ["end".data, "end".data]

/-- A class left open at end of input. -/
def lineClassOpen : List Char := "class C".data

/-- The operator-method input of the spec example. -/
def operatorInput : List Char := "[]=(k,v)".data

/-- The singleton-method definition of the spec example. -/
def lineDefSelfMake : List Char := "def self.make".data

/-- A def keyword that ends the line. -/
def lineDefBare : List Char := "def".data

/-- A class keyword followed by a parenthesis instead of whitespace. -/
def lineClassParen : List Char := "class(Foo)".data

theorem canMatch_cases (s literal : List Char) (end_check : Char → Bool) :
    (canMatch s literal end_check = (true, s.drop literal.length) ∧
       end_check (headNul (s.drop literal.length)) = true) ∨
      canMatch s literal end_check = (false, s) := by
  unfold canMatch
  split
  · split
    next hb => exact Or.inl ⟨rfl, hb⟩
    next => exact Or.inr rfl
  · exact Or.inr rfl

theorem canMatchKeywordWithAssign_cases (s literal : List Char) :
    (canMatchKeywordWithAssign s literal).1 = true ∨
      canMatchKeywordWithAssign s literal = (false, s) := by
  simp only [canMatchKeywordWithAssign]
  split
  next h => exact Or.inl h
  next =>
    split
    next => exact Or.inr rfl
    next =>
      split
      next => exact Or.inr rfl
      next =>
        split
        next h2 => exact Or.inl h2
        next => exact Or.inr rfl

theorem parseRubyOperatorLoop_spec (ops : List (List Char)) (name cp : List Char)
    (h : (parseRubyOperatorLoop ops name cp).1 = true) :
    ∃ op, op ∈ ops ∧
      parseRubyOperatorLoop ops name cp = (true, name ++ op, cp.drop op.length) ∧
      notOperatorChar (headNul (cp.drop op.length)) = true := by
  induction ops with
  | nil => simp [parseRubyOperatorLoop] at h
  | cons op rest ih =>
    rcases canMatch_cases cp op notOperatorChar with ⟨he, hb⟩ | he
    · refine ⟨op, List.mem_cons_self op rest, ?_, hb⟩
      simp [parseRubyOperatorLoop, he]
    · have hstep : parseRubyOperatorLoop (op :: rest) name cp =
          parseRubyOperatorLoop rest name cp := by
        simp [parseRubyOperatorLoop, he]
      rw [hstep] at h
      rcases ih h with ⟨op2, hmem, heq, hb2⟩
      exact ⟨op2, List.mem_cons_of_mem op hmem, hstep ▸ heq, hb2⟩

theorem specDotJoined_cons (n : List Char) (ns : List (List Char)) :
    specDotJoined (n :: ns) = n ++ (ns.map (fun m => SCOPE_SEPARATOR :: m)).flatten := by
  induction ns generalizing n with
  | nil => simp [specDotJoined]
  | cons m ms ih =>
    have h1 : specDotJoined (n :: m :: ms) =
        n ++ SCOPE_SEPARATOR :: specDotJoined (m :: ms) := rfl
    rw [h1, ih m]
    simp

theorem updateNthLevel_length (l : List NestingLevel) (i : Nat)
    (f : NestingLevel → NestingLevel) :
    (updateNthLevel l i f).length = l.length := by
  induction l generalizing i with
  | nil => simp [updateNthLevel]
  | cons x rest ih =>
    cases i with
    | zero => simp [updateNthLevel]
    | succ n => simp [updateNthLevel, ih]

theorem scopeLoop_spec (cork : List tagEntryInfo) (frames : List NestingLevel)
    (acc : List Char) (chunks_output : Nat) :
    scopeLoop cork frames acc chunks_output =
      acc ++ (if chunks_output = 0
              then specDotJoined (frames.filterMap (frameContributedName cork))
              else ((frames.filterMap (frameContributedName cork)).map
                      (fun n => SCOPE_SEPARATOR :: n)).flatten) := by
  induction frames generalizing acc chunks_output with
  | nil => simp [scopeLoop, specDotJoined]
  | cons nl rest ih =>
    cases hE : getEntryOfNestingLevel cork (some nl) with
    | none =>
      have hF : frameContributedName cork nl = none := by
        simp [frameContributedName, hE]
      rw [show scopeLoop cork (nl :: rest) acc chunks_output =
            scopeLoop cork rest acc chunks_output by simp [scopeLoop, hE]]
      rw [ih, List.filterMap_cons_none hF]
    | some e =>
      by_cases hc : (e.name.length > 0 && ! e.placeholder) = true
      · have hF : frameContributedName cork nl = some e.name := by
          simp [frameContributedName, hE, hc]
        rw [List.filterMap_cons_some hF]
        cases chunks_output with
        | zero =>
          rw [show scopeLoop cork (nl :: rest) acc 0 =
                scopeLoop cork rest (acc ++ [] ++ e.name) 1 by
              simp [scopeLoop, hE, hc]]
          rw [ih]
          simp [specDotJoined_cons]
        | succ k =>
          rw [show scopeLoop cork (nl :: rest) acc (k + 1) =
                scopeLoop cork rest (acc ++ [SCOPE_SEPARATOR] ++ e.name) (k + 2) by
              simp [scopeLoop, hE, hc]]
          rw [ih]
          simp
      · have hF : frameContributedName cork nl = none := by
          simp only [frameContributedName, hE]
          simp [hc]
        rw [show scopeLoop cork (nl :: rest) acc chunks_output =
              scopeLoop cork rest acc chunks_output by simp [scopeLoop, hE, hc]]
        rw [ih, List.filterMap_cons_none hF]

theorem bal_push (st : ScanState) (r : Nat)
    (h : st.pushes = st.pops + st.nesting.length) :
    (nestingLevelsPush st r).pushes =
      (nestingLevelsPush st r).pops + (nestingLevelsPush st r).nesting.length := by
  simp [nestingLevelsPush]
  omega

theorem bal_enter (st : ScanState)
    (h : st.pushes = st.pops + st.nesting.length) :
    (enterUnnamedScope st).pushes =
      (enterUnnamedScope st).pops + (enterUnnamedScope st).nesting.length := by
  unfold enterUnnamedScope
  split
  · exact bal_push _ _ h
  · exact bal_push _ _ h

theorem bal_pop (st : ScanState)
    (h : st.pushes = st.pops + st.nesting.length) :
    (nestingLevelsPop st).pushes =
      (nestingLevelsPop st).pops + (nestingLevelsPop st).nesting.length := by
  unfold nestingLevelsPop
  split
  next => exact h
  next nl rest heq =>
    rw [heq] at h
    simp at h ⊢
    omega

theorem bal_emit (enabled : rubyKind → Bool) (st : ScanState)
    (name : List Char) (kind : rubyKind)
    (h : st.pushes = st.pops + st.nesting.length) :
    ((emitRubyTag enabled st name kind).1).pushes =
      ((emitRubyTag enabled st name kind).1).pops +
        ((emitRubyTag enabled st name kind).1).nesting.length := by
  unfold emitRubyTag
  split
  · exact h
  · dsimp only
    split
    · exact bal_push _ _ h
    · exact h

theorem bal_readAndEmitTag (enabled : rubyKind → Bool) (st : ScanState)
    (cp : List Char) (expected_kind : rubyKind)
    (h : st.pushes = st.pops + st.nesting.length) :
    ((readAndEmitTag enabled st cp expected_kind).1).pushes =
      ((readAndEmitTag enabled st cp expected_kind).1).pops +
        ((readAndEmitTag enabled st cp expected_kind).1).nesting.length := by
  unfold readAndEmitTag
  split
  · dsimp only
    split
    · exact bal_enter _ h
    · exact bal_emit _ _ _ _ h
  · exact h


theorem bal_readAndStoreMixinBody (st : ScanState) (cp how_mixin : List Char)
    (idx : Nat) (e : tagEntryInfo)
    (h : st.pushes = st.pops + st.nesting.length) :
    ((readAndStoreMixinBody st cp how_mixin idx e).1).pushes =
      ((readAndStoreMixinBody st cp how_mixin idx e).1).pops +
        ((readAndStoreMixinBody st cp how_mixin idx e).1).nesting.length := by
  unfold readAndStoreMixinBody
  split
  · exact h
  · split
    · dsimp only
      split
      · exact h
      · simpa [updateNthLevel_length] using h
    · exact h

theorem bal_readAndStoreMixinSpec (st : ScanState) (cp how_mixin : List Char)
    (result : ScanState × List Char)
    (hok : readAndStoreMixinSpec st cp how_mixin = Except.ok result)
    (h : st.pushes = st.pops + st.nesting.length) :
    result.1.pushes = result.1.pops + result.1.nesting.length := by
  unfold readAndStoreMixinSpec at hok
  split at hok
  · exact absurd hok (by simp)
  · split at hok
    · split at hok
      · cases hok
        exact h
      · split at hok
        · exact absurd hok (by simp)
        · cases hok
          exact bal_readAndStoreMixinBody _ _ _ _ _ h
    · cases hok
      exact bal_readAndStoreMixinBody _ _ _ _ _ h

theorem bal_lineDispatch1 (st : ScanState) (cp : List Char)
    (h : st.pushes = st.pops + st.nesting.length) :
    ((lineDispatch1 st cp).1).pushes =
      ((lineDispatch1 st cp).1).pops + ((lineDispatch1 st cp).1).nesting.length := by
  unfold lineDispatch1
  dsimp only
  split
  · exact bal_enter _ h
  · split
    · exact bal_enter _ h
    · exact h

theorem bal_classBranchDispatch (enabled : rubyKind → Bool) (st : ScanState)
    (cpAfterKeyword : List Char)
    (h : st.pushes = st.pops + st.nesting.length) :
    ((classBranchDispatch enabled st cpAfterKeyword).1).pushes =
      ((classBranchDispatch enabled st cpAfterKeyword).1).pops +
        ((classBranchDispatch enabled st cpAfterKeyword).1).nesting.length := by
  unfold classBranchDispatch
  dsimp only
  split
  · split
    · split
      · exact bal_readAndEmitTag _ _ _ _ h
      · exact bal_readAndEmitTag _ _ _ _ h
    · exact bal_readAndEmitTag _ _ _ _ h
  · exact bal_readAndEmitTag _ _ _ _ h

theorem bal_moduleBranchDispatch (enabled : rubyKind → Bool) (st : ScanState)
    (cpAfterKeyword : List Char)
    (h : st.pushes = st.pops + st.nesting.length) :
    ((moduleBranchDispatch enabled st cpAfterKeyword).1).pushes =
      ((moduleBranchDispatch enabled st cpAfterKeyword).1).pops +
        ((moduleBranchDispatch enabled st cpAfterKeyword).1).nesting.length :=
  bal_readAndEmitTag _ _ _ _ h

theorem bal_defBranchDispatch (enabled : rubyKind → Bool) (st : ScanState)
    (cpAfterKeyword : List Char)
    (h : st.pushes = st.pops + st.nesting.length) :
    ((defBranchDispatch enabled st cpAfterKeyword).1).pushes =
      ((defBranchDispatch enabled st cpAfterKeyword).1).pops +
        ((defBranchDispatch enabled st cpAfterKeyword).1).nesting.length :=
  bal_readAndEmitTag _ _ _ _ h

theorem bal_constBranchDispatch (enabled : rubyKind → Bool) (st : ScanState)
    (cp : List Char)
    (h : st.pushes = st.pops + st.nesting.length) :
    ((constBranchDispatch enabled st cp).1).pushes =
      ((constBranchDispatch enabled st cp).1).pops +
        ((constBranchDispatch enabled st cp).1).nesting.length := by
  unfold constBranchDispatch
  dsimp only
  split
  · exact bal_emit _ _ _ _ h
  · exact h

theorem bal_of_ok_pair (x result : ScanState × List Char)
    (hok : (Except.ok x : Except Unit (ScanState × List Char)) = Except.ok result)
    (hx : x.1.pushes = x.1.pops + x.1.nesting.length) :
    result.1.pushes = result.1.pops + result.1.nesting.length := by
  cases hok
  exact hx

theorem bal_lineDispatch2 (enabled : rubyKind → Bool) (st : ScanState)
    (cp : List Char) (result : ScanState × List Char)
    (hok : lineDispatch2 enabled st cp = Except.ok result)
    (h : st.pushes = st.pops + st.nesting.length) :
    result.1.pushes = result.1.pops + result.1.nesting.length := by
  unfold lineDispatch2 at hok
  dsimp only at hok
  split at hok
  · exact bal_of_ok_pair _ _ hok (bal_moduleBranchDispatch _ _ _ h)
  · split at hok
    · exact bal_of_ok_pair _ _ hok (bal_classBranchDispatch _ _ _ h)
    · split at hok
      · exact bal_readAndStoreMixinSpec _ _ _ _ hok h
      · split at hok
        · exact bal_readAndStoreMixinSpec _ _ _ _ hok h
        · split at hok
          · exact bal_readAndStoreMixinSpec _ _ _ _ hok h
          · split at hok
            · exact bal_of_ok_pair _ _ hok (bal_defBranchDispatch _ _ _ h)
            · exact bal_of_ok_pair _ _ hok (bal_constBranchDispatch _ _ _ h)

theorem bal_sweepF (fuel : Nat) : ∀ (st : ScanState) (inML es : Bool)
    (cp : List Char), st.pushes = st.pops + st.nesting.length →
    (sweepF fuel st inML es cp).pushes =
      (sweepF fuel st inML es cp).pops +
        (sweepF fuel st inML es cp).nesting.length := by
  induction fuel with
  | zero =>
    intro st inML es cp h
    simpa [sweepF] using h
  | succ n ih =>
    intro st inML es cp h
    unfold sweepF
    cases cp with
    | nil => exact h
    | cons c rest =>
      dsimp only
      split
      · exact ih _ _ _ _ h
      · split
        · exact h
        · split
          · exact ih _ _ _ _ (bal_enter _ h)
          · split
            · split
              · exact ih _ _ _ _ (bal_enter _ h)
              · exact ih _ _ _ _ h
            · split
              · exact ih _ _ _ _ (bal_pop _ h)
              · split
                · exact h
                · split
                  · exact ih _ _ _ _ h
                  · split
                    · exact ih _ _ _ _ h
                    · exact ih _ _ _ _ h

theorem bal_ok_processed (x : ScanState × Bool) (result : ScanState × Bool)
    (hok : (Except.ok x : Except Unit (ScanState × Bool)) = Except.ok result)
    (hx : x.1.pushes = x.1.pops + x.1.nesting.length) :
    result.1.pushes = result.1.pops + result.1.nesting.length := by
  cases hok
  exact hx

theorem bal_processLine (enabled : rubyKind → Bool) (st : ScanState)
    (inML : Bool) (line : List Char) (result : ScanState × Bool)
    (hok : processLine enabled st inML line = Except.ok result)
    (h : st.pushes = st.pops + st.nesting.length) :
    result.1.pushes = result.1.pops + result.1.nesting.length := by
  unfold processLine at hok
  dsimp only at hok
  split at hok
  · exact bal_ok_processed _ _ hok h
  · split at hok
    · exact bal_ok_processed _ _ hok h
    · split at hok
      · exact bal_ok_processed _ _ hok h
      · split at hok
        · exact absurd hok (by simp)
        · next st2 cp2 heq =>
          exact bal_ok_processed _ _ hok
            (bal_sweepF _ _ _ _ _
              (bal_lineDispatch2 _ _ _ _ heq (bal_lineDispatch1 _ _ h)))

theorem bal_scanLines (enabled : rubyKind → Bool) (lines : List (List Char)) :
    ∀ (st : ScanState) (inML : Bool) (stf : ScanState),
    scanLines enabled lines st inML = Except.ok stf →
    st.pushes = st.pops + st.nesting.length →
    stf.pushes = stf.pops + stf.nesting.length := by
  induction lines with
  | nil =>
    intro st inML stf hok h
    simp only [scanLines] at hok
    cases hok
    exact h
  | cons l ls ih =>
    intro st inML stf hok h
    unfold scanLines at hok
    split at hok
    · exact absurd hok (by simp)
    · next st2 f2 heq =>
      exact ih _ _ _ hok (bal_processLine _ _ _ _ _ heq h)

theorem identLoopGen_restart_irrel
    (r1 r2 : List Char → rubyKind × List Char × List Char)
    (kind : rubyKind) (hk : kind ≠ K_METHOD) (also_ok : List Char)
    (had_sep : Bool) (name cp : List Char) :
    identLoopGen r1 kind also_ok had_sep name cp =
      identLoopGen r2 kind also_ok had_sep name cp := by
  induction cp generalizing had_sep name with
  | nil => rfl
  | cons c rest ih =>
    unfold identLoopGen
    dsimp only
    split
    · split
      · exact ih _ _
      · split
        · next hcond => exact absurd hcond.1 hk
        · split
          · rfl
          · exact ih _ _
    · rfl

theorem parseIdentifierWith_singleton_irrel
    (r1 r2 : List Char → rubyKind × List Char × List Char)
    (cp name : List Char) :
    parseIdentifierWith r1 cp name K_SINGLETON =
      parseIdentifierWith r2 cp name K_SINGLETON := by
  unfold parseIdentifierWith
  dsimp only
  rw [identLoopGen_restart_irrel r1 r2 K_SINGLETON (by decide)]

theorem parseIdentifierSingleton_eq (cp name : List Char) :
    parseIdentifier cp name K_SINGLETON = parseIdentifierSingleton cp name :=
  parseIdentifierWith_singleton_irrel _ _ cp name

theorem sweep_do_step (fuel : Nat) (st : ScanState) (es : Bool) (rest : List Char)
    (h : notIdentChar (headNul rest) = true) :
    sweepF (fuel + 1) st false es ('d' :: 'o' :: rest) =
      if es then sweepF fuel st false false rest
      else sweepF fuel (enterUnnamedScope st) false false rest := by
  conv_lhs => rw [sweepF.eq_def]
  dsimp only
  simp +decide only [canMatchKeyword, canMatch, List.length_cons, List.length_nil,
    List.take_succ_cons, List.take_zero, List.drop_succ_cons, List.drop_zero,
    List.cons.injEq, h]
  cases es
  · simp [h]
  · simp [h]

theorem sweep_end_empty (st : ScanState) (inML es : Bool) (h : st.nesting = []) :
    sweep st inML es ['e', 'n', 'd'] = st := by
  cases inML <;>
    simp +decide [sweep, sweepF, canMatchKeyword, canMatch, h]

theorem sweep_end_pop_step (fuel : Nat) (st : ScanState) (es : Bool)
    (rest : List Char) (h : notIdentChar (headNul rest) = true)
    (hne : st.nesting ≠ []) :
    sweepF (fuel + 1) st false es ('e' :: 'n' :: 'd' :: rest) =
      sweepF fuel (nestingLevelsPop st) false es rest := by
  have hlen : 0 < st.nesting.length := List.length_pos.mpr hne
  conv_lhs => rw [sweepF.eq_def]
  dsimp only
  simp +decide only [canMatchKeyword, canMatch, List.length_cons, List.length_nil,
    List.take_succ_cons, List.take_zero, List.drop_succ_cons, List.drop_zero,
    List.cons.injEq, h]
  simp [h, hlen]

/--
C1: the claim states that the mixin field attached to a closing frame is
the comma-joined concatenation of all recorded relation:module-path
strings in accumulation order for any number of specs.  Evaluating the
scanner at a class with three recorded includes of A, B and C shows the
field include:A,include:B,include:B - the aggregation loop appends the
spec at the constant list index 1 on every iteration - while the
two-spec example of the spec does come out as include:Foo,include:Bar.
-/
theorem mixin_join_repeats_second_item :
    findRubyTags allKindsEnabled linesMixinThree =
      Except.ok
        (⟨[],
          [{ name := "X".data, kindIndex := K_CLASS,
             mixinField := some "include:A,include:B,include:B".data }],
          1, 1⟩, 0) ∧
    findRubyTags allKindsEnabled linesMixinTwo =
      Except.ok
        (⟨[],
          [{ name := "C".data, kindIndex := K_CLASS,
             mixinField := some "include:Foo,include:Bar".data }],
          1, 1⟩, 0) :=
  ⟨rfl, rfl⟩

/--
C2: the claim states that the scan runs to end of input on every file and
that handling an include line never reads the kind of an absent frame
entry.  Evaluating the scanner at a file whose only line is a top-level
include (empty scope stack), and at a file where the innermost frame is
an anonymous placeholder with no bound symbol, shows the unguarded read
of the entry kind in readAndStoreMixinSpec failing on an absent entry:
the embedded scan aborts with an error on both inputs.
-/
theorem include_reads_absent_entry :
    findRubyTags allKindsEnabled [lineIncludeFoo] = Except.error () ∧
    findRubyTags allKindsEnabled linesIfInclude = Except.error () :=
  ⟨rfl, rfl⟩

/--
C3: the scope-qualifier string computed for a newly emitted symbol is the
dot-joined concatenation of the names of exactly those enclosing frames
whose bound symbol is present, non-empty and non-placeholder, in
outer-to-inner order; and in the nested module M, class C, def bar
example the symbol bar carries scope-qualifier M.C with scope-parent
kind class.  The third conjunct covers the explicit-qualifier extension:
for module Foo colon-colon Bar the prefix Foo is split off the raw name
and appended to the computed scope, with module as the assumed
scope-parent kind.
-/
theorem scope_qualifier_is_dot_joined_names :
    (∀ (cork : List tagEntryInfo) (nesting : List NestingLevel),
       nestingLevelsToScope cork nesting =
         specDotJoined (enclosingScopeNames cork nesting)) ∧
    scanLines allKindsEnabled linesNested initialState false =
      Except.ok
        ⟨[],
         [{ name := "M".data, kindIndex := K_MODULE },
          { name := "C".data, kindIndex := K_CLASS,
            scopeKindIndex := some K_MODULE, scopeName := some "M".data },
          { name := "bar".data, kindIndex := K_METHOD,
            scopeKindIndex := some K_CLASS, scopeName := some "M.C".data }],
         3, 3⟩ ∧
    scanLines allKindsEnabled linesQualified initialState false =
      Except.ok
        ⟨[],
         [{ name := "Bar".data, kindIndex := K_MODULE,
            scopeKindIndex := some K_MODULE, scopeName := some "Foo".data }],
         1, 1⟩ := by
  refine ⟨?_, rfl, rfl⟩
  intro cork nesting
  unfold nestingLevelsToScope enclosingScopeNames
  rw [scopeLoop_spec]
  simp

/--
C4: a failed canMatch call leaves the cursor exactly where it was, and a
failed canMatchKeywordWithAssign call, failing at any of its steps,
restores the cursor to its original position with no partial consumption.
-/
theorem failed_matches_leave_cursor :
    (∀ (s literal : List Char) (end_check : Char → Bool),
       (canMatch s literal end_check).1 = false →
       (canMatch s literal end_check).2 = s) ∧
    (∀ (s literal : List Char),
       (canMatchKeywordWithAssign s literal).1 = false →
       (canMatchKeywordWithAssign s literal).2 = s) := by
  constructor
  · intro s literal end_check h
    rcases canMatch_cases s literal end_check with ⟨he, _⟩ | he
    · rw [he] at h
      simp at h
    · rw [he]
  · intro s literal h
    rcases canMatchKeywordWithAssign_cases s literal with ht | he
    · rw [h] at ht
      simp at ht
    · rw [he]

/-- Witness for C4 at a concrete failing match. -/
theorem failed_matches_leave_cursor_witness :
    (canMatch "abc".data "xy".data notIdentChar).2 = "abc".data ∧
    (canMatchKeywordWithAssign "abc".data "do".data).2 = "abc".data :=
  ⟨failed_matches_leave_cursor.1 _ _ _ (by decide),
   failed_matches_leave_cursor.2 _ _ (by decide)⟩

/--
C5: the expect-separator flag is line-local.  A do keyword scanned while
the flag is armed is consumed as the statement separator with no new
scope and disarms the flag, while a do scanned with the flag unarmed
pushes an anonymous frame (first conjunct, the sweep step at a do
token).  Concretely: a one-line while-do opens exactly one frame; a
while header whose do sits on the next line opens two frames (the do of
the next line sees the unarmed flag); and a semicolon before the do on
the same line clears the flag, so that do opens a second frame.
-/
theorem expect_separator_line_local :
    (∀ (fuel : Nat) (st : ScanState) (es : Bool) (rest : List Char),
       notIdentChar (headNul rest) = true →
       sweepF (fuel + 1) st false es ('d' :: 'o' :: rest) =
         if es then sweepF fuel st false false rest
         else sweepF fuel (enterUnnamedScope st) false false rest) ∧
    scanLines allKindsEnabled linesWhileDo initialState false =
      Except.ok ⟨[], [], 1, 1⟩ ∧
    scanLines allKindsEnabled linesWhileNewlineDo initialState false =
      Except.ok ⟨[], [], 2, 2⟩ ∧
    scanLines allKindsEnabled linesWhileSemiDo initialState false =
      Except.ok ⟨[⟨CORK_NIL, []⟩, ⟨CORK_NIL, []⟩], [], 2, 0⟩ :=
  ⟨sweep_do_step, rfl, rfl, rfl⟩

/-- Witness for C5 at a concrete do token with the flag armed. -/
theorem expect_separator_line_local_witness :
    sweepF 1 initialState false true ['d', 'o'] =
      sweepF 0 initialState false false [] := by
  have h := expect_separator_line_local.1 0 initialState true [] (by decide)
  simpa using h

/--
C6: an emission request for an administratively disabled kind produces no
symbol, pushes no frame and signals CORK_NIL (first conjunct); derived
mixin metadata is never attached through a frame with no bound symbol
(second conjunct, the guard of deleteBlockData); with the constant kind
disabled the line VALUE = 1 emits nothing and leaves the scanner state
untouched; and with the class kind disabled the class C with parent Base
line emits nothing, pushes nothing, and attaches no inheritance parent.
-/
theorem disabled_kind_emits_nothing :
    (∀ (enabled : rubyKind → Bool) (st : ScanState) (name : List Char)
       (kind : rubyKind), enabled kind = false →
       emitRubyTag enabled st name kind = (st, CORK_NIL)) ∧
    (∀ (cork : List tagEntryInfo) (nl : NestingLevel),
       nl.corkIndex = CORK_NIL → deleteBlockData cork nl = cork) ∧
    scanLines constKindDisabled [lineConstantAssign] initialState false =
      Except.ok initialState ∧
    scanLines classKindDisabled [lineClassBase] initialState false =
      Except.ok initialState := by
  refine ⟨?_, ?_, rfl, rfl⟩
  · intro enabled st name kind h
    unfold emitRubyTag
    simp [h]
  · intro cork nl h
    unfold deleteBlockData
    simp [h]

/-- Witness for C6 at the disabled constant kind and a CORK_NIL frame. -/
theorem disabled_kind_emits_nothing_witness :
    emitRubyTag constKindDisabled initialState "VALUE".data K_CONST =
      (initialState, CORK_NIL) ∧
    deleteBlockData [] ⟨CORK_NIL, ["x".data]⟩ = [] :=
  ⟨disabled_kind_emits_nothing.1 _ _ _ _ (by decide),
   disabled_kind_emits_nothing.2.1 _ _ rfl⟩

/--
C7: an end keyword scanned while the scope stack is empty pops nothing
and leaves the scanner state unchanged (first conjunct); for every input
whose scan completes, total pushes minus total pops equals the number of
frames still open, the driver resolves them by unconditional teardown,
and the number of frames torn down during final cleanup is exactly that
count (second conjunct); and unbalanced inputs - two bare ends, or a
class left open at end of input - complete without error.
-/
theorem unbalanced_input_tolerated :
    (∀ (st : ScanState) (inML es : Bool), st.nesting = [] →
       sweep st inML es ['e', 'n', 'd'] = st) ∧
    (∀ (enabled : rubyKind → Bool) (lines : List (List Char)) (st : ScanState),
       scanLines enabled lines initialState false = Except.ok st →
       st.pushes = st.pops + st.nesting.length ∧
       findRubyTags enabled lines = Except.ok (nestingLevelsFree st) ∧
       (nestingLevelsFree st).2 = st.nesting.length) ∧
    findRubyTags allKindsEnabled linesEndEnd = Except.ok (initialState, 0) ∧
    findRubyTags allKindsEnabled [lineClassOpen] =
      Except.ok (⟨[], [{ name := "C".data, kindIndex := K_CLASS }], 1, 0⟩, 1) := by
  refine ⟨sweep_end_empty, ?_, rfl, rfl⟩
  intro enabled lines st hok
  refine ⟨bal_scanLines enabled lines initialState false st hok rfl, ?_, rfl⟩
  unfold findRubyTags
  rw [hok]

/-- Witness for C7 at the empty stack and the empty line supply. -/
theorem unbalanced_input_tolerated_witness :
    sweep initialState false false ['e', 'n', 'd'] = initialState ∧
    (initialState.pushes = initialState.pops + initialState.nesting.length ∧
     findRubyTags allKindsEnabled [] = Except.ok (nestingLevelsFree initialState) ∧
     (nestingLevelsFree initialState).2 = initialState.nesting.length) :=
  ⟨unbalanced_input_tolerated.1 initialState false false rfl,
   unbalanced_input_tolerated.2.1 allKindsEnabled [] initialState rfl⟩

/--
C8: a successful operator-method read always consumed a spelling from the
table whose following character satisfies the non-operator boundary check
(first conjunct), and on the concrete input of the claim the reader
yields exactly the three-character spelling with the trailing equals
sign, not its two-character prefix.
-/
theorem operator_method_boundary :
    (∀ (name cp : List Char), (parseRubyOperator name cp).1 = true →
       ∃ op, op ∈ RUBY_OPERATORS ∧
         parseRubyOperator name cp = (true, name ++ op, cp.drop op.length) ∧
         notOperatorChar (headNul (cp.drop op.length)) = true) ∧
    parseRubyOperator [] operatorInput = (true, "[]=".data, "(k,v)".data) := by
  refine ⟨?_, rfl⟩
  intro name cp h
  exact parseRubyOperatorLoop_spec RUBY_OPERATORS name cp h

/-- Witness for C8 at the concrete operator input. -/
theorem operator_method_boundary_witness :
    ∃ op, op ∈ RUBY_OPERATORS ∧
      parseRubyOperator [] operatorInput =
        (true, [] ++ op, operatorInput.drop op.length) ∧
      notOperatorChar (headNul (operatorInput.drop op.length)) = true :=
  operator_method_boundary.1 [] operatorInput (by decide)

/--
C9: while reading a name with the method kind, a period aborts the read,
clears the accumulated name whatever it was, and restarts the read as a
singleton read (first conjunct); on the line def self.make exactly one
symbol is emitted, a singleton method named make.
-/
theorem method_dot_restarts_singleton :
    (∀ (had_sep : Bool) (name rest : List Char),
       identLoopGen (fun s => parseIdentifierSingleton s []) K_METHOD
         ['.', '?', '!', '='] had_sep name ('.' :: rest) =
         parseIdentifier rest [] K_SINGLETON) ∧
    scanLines allKindsEnabled [lineDefSelfMake] initialState false =
      Except.ok
        ⟨[⟨1, []⟩], [{ name := "make".data, kindIndex := K_SINGLETON }],
         1, 0⟩ := by
  refine ⟨?_, rfl⟩
  intro had_sep name rest
  rw [parseIdentifierSingleton_eq]
  conv_lhs => rw [identLoopGen.eq_def]
  simp +decide

/--
C10: whenever a leading module, class or def keyword matched but the
character immediately after the keyword is not a space character, the
read-and-emit step emits no symbol, pushes no frame - not even an
anonymous placeholder - and returns CORK_NIL with the cursor unmoved
(first conjunct); the lines consisting of a bare def and of a class
keyword followed by a parenthesis leave the scanner state untouched.
-/
theorem keyword_without_space_no_effect :
    (∀ (enabled : rubyKind → Bool) (st : ScanState) (cp : List Char)
       (kind : rubyKind), isSpaceC (headNul cp) = false →
       readAndEmitTag enabled st cp kind = (st, CORK_NIL, cp)) ∧
    scanLines allKindsEnabled [lineDefBare] initialState false =
      Except.ok initialState ∧
    scanLines allKindsEnabled [lineClassParen] initialState false =
      Except.ok initialState := by
  refine ⟨?_, rfl, rfl⟩
  intro enabled st cp kind h
  unfold readAndEmitTag
  simp [h]

/-- Witness for C10 at a class keyword followed by a parenthesis. -/
theorem keyword_without_space_no_effect_witness :
    readAndEmitTag allKindsEnabled initialState "(Foo)".data K_CLASS =
      (initialState, CORK_NIL, "(Foo)".data) :=
  keyword_without_space_no_effect.1 _ _ _ _ (by decide)
